import Mathlib

/-!
Verification of the in-memory vector store of the `stylist` repository.

The embedding mirrors `src/embedding.rs` and `src/store.rs`:

* `DataEntry`, `InMemoryVectorStore` and the operations `kv_storage`,
  `kv_search`, `cosine_similarity`, `kv_delete`, `kv_edit`, `add`, `edit`,
  `delete` are translated field by field and branch by branch from the Rust
  source.  Rust `f64` values are idealized as real numbers `ℝ` (so there is
  no NaN, no infinity and no rounding; `partial_cmp(..).unwrap()` never
  panics in the idealization and the comparison is the total order on `ℝ`).
* Mutating Rust methods on `&mut self` become state-passing functions
  returning `Except StoreError Unit × InMemoryVectorStore`: the second
  component is the store after the call, also when the call reports an
  error (Rust reports errors while keeping whatever mutation already
  happened, so atomicity is a theorem, not a given).
* The external embedding capability (`instantiate_client` plus
  `vectorize_image_concurrently` in the source) is modelled by its outcome,
  an `Option (List ℝ)` argument: `some v` is a successful vectorization
  producing `v`, `none` is a capability failure, which the store reports as
  `StoreError.embeddingFailure`.
* Rust `slice::sort_by` is a stable sort; it is modelled by the verified
  stable `List.mergeSort` with the same comparator (keep `a` before `b`
  when the comparator on `(a, b)` is not `Greater`, i.e. when the
  similarity of `b` is at most the similarity of `a`).
* `SharedStores.save` / `SharedStores.load` (in `src/store.rs`) serialize a
  `PersistentStores` value with `serde_json` to a file and read it back.
  The JSON document is modelled by the `Json` tree below (serde
  distinguishes integer and floating numbers; floating numbers are ideal
  reals, matching the fact that serde_json prints every finite `f64` as a
  shortest decimal that parses back to the identical bits).  The file
  system is modelled as handing the written document to `load` unchanged.
-/

namespace Stylist

/-- Error taxonomy of the store, mirroring `DataEntryErrors` in
`src/embedding.rs` plus the opaque external failures that
`anyhow::Error` also transports (client instantiation or vectorization
failures inside `add`, `edit` and `search`). -/
inductive StoreError where
  | noDataWasFound
  | embeddingFailure
deriving DecidableEq

/-- One stored record, mirroring `DataEntry` in `src/embedding.rs`.
The `f64` vector components are idealized as `ℝ`. -/
structure DataEntry where
  id : Nat
  name : String
  vector : List ℝ
  descriptions : List String

/-- Rust indexing `self.data_entries[idx]` is modelled with `List.getD`
and this default; every index reaching it in the model is in bounds. -/
instance : Inhabited DataEntry := ⟨⟨0, "", [], []⟩⟩

/-- The in-memory store, mirroring `InMemoryVectorStore` in
`src/embedding.rs`.  The Rust field `prompt_annotations` is spelled
`prompt_annots` here; everything else keeps its source name. -/
structure InMemoryVectorStore where
  data_entries : List DataEntry
  prompt_annots : List String
  prompts : List String
  prompt_size : Nat
  dimensions : Nat

namespace InMemoryVectorStore

/-- Mirrors `InMemoryVectorStore::new`. -/
def new (dimensions : Nat) (prompt_annots : List String) (prompts : List String)
    (prompt_size : Nat) : InMemoryVectorStore :=
  { data_entries := []
    prompts := prompts
    prompt_size := prompt_size
    prompt_annots := prompt_annots
    dimensions := dimensions }

/-- Mirrors `InMemoryVectorStore::kv_storage`: computes
`current_id = len + 1`, pushes the new record, returns the id.  The Rust
function returns `Result<usize>` but never errs; the model returns the
new store and the id. -/
def kv_storage (s : InMemoryVectorStore) (name : String)
    (descriptions : List String) (vector : List ℝ) :
    InMemoryVectorStore × Nat :=
  let current_id : Nat := s.data_entries.length + 1
  ({ s with
      data_entries := s.data_entries ++
        [{ id := current_id, name := name, vector := vector,
           descriptions := descriptions }] },
   current_id)

/-- Mirrors `InMemoryVectorStore::cosine_similarity` (the `&self`
receiver is unused in the source and dropped here): dot product over the
zip of the two slices, norms over each full slice, `0.0` when either
norm is zero, quotient otherwise. -/
noncomputable def cosine_similarity (a b : List ℝ) : ℝ :=
  let dot_product : ℝ := ((a.zip b).map fun p => p.1 * p.2).sum
  let norm_a : ℝ := Real.sqrt ((a.map fun x => x * x).sum)
  let norm_b : ℝ := Real.sqrt ((b.map fun x => x * x).sum)
  if norm_a = 0 ∨ norm_b = 0 then 0
  else dot_product / (norm_a * norm_b)

/-- The `similarities` local of `kv_search`: each entry index paired with
the cosine similarity of the query against that entry. -/
noncomputable def similarities (s : InMemoryVectorStore)
    (query_vector : List ℝ) : List (Nat × ℝ) :=
  s.data_entries.enum.map fun p => (p.1, cosine_similarity query_vector p.2.vector)

/-- The sorted `similarities` of `kv_search`:
`similarities.sort_by(|a, b| b.1.partial_cmp(&a.1).unwrap())`, a stable
sort that keeps `a` before `b` exactly when the similarity of `b` is at
most the similarity of `a` (descending by similarity, insertion order on
ties). -/
noncomputable def sortedSimilarities (s : InMemoryVectorStore)
    (query_vector : List ℝ) : List (Nat × ℝ) :=
  (similarities s query_vector).mergeSort fun a b => decide (b.2 ≤ a.2)

/-- The `top_entries` local of `kv_search`: take `top_n` of the sorted
pairs and map each index back to its record. -/
noncomputable def top_entries (s : InMemoryVectorStore)
    (query_vector : List ℝ) (top_n : Nat) : List DataEntry :=
  ((sortedSimilarities s query_vector).take top_n).map fun p =>
    s.data_entries.getD p.1 default

/-- Mirrors `InMemoryVectorStore::kv_search`: error on an empty store,
otherwise rank all entries, truncate to `top_n`, error when the
truncation is empty, else return it. -/
noncomputable def kv_search (s : InMemoryVectorStore)
    (query_vector : List ℝ) (top_n : Nat) :
    Except StoreError (List DataEntry) :=
  if s.data_entries.isEmpty then .error .noDataWasFound
  else if (top_entries s query_vector top_n).isEmpty then .error .noDataWasFound
  else .ok (top_entries s query_vector top_n)

/-- Mirrors `InMemoryVectorStore::kv_delete`: find the position of the
first entry whose id matches, remove it, or report `NoDataWasFound`. -/
def kv_delete (s : InMemoryVectorStore) (id : Nat) :
    Except StoreError Unit × InMemoryVectorStore :=
  match s.data_entries.findIdx? (fun entry => entry.id == id) with
  | some index =>
      (.ok (), { s with data_entries := s.data_entries.eraseIdx index })
  | none => (.error .noDataWasFound, s)

/-- Mirrors `InMemoryVectorStore::kv_edit`: replace the first entry
whose id matches in place, or report `NoDataWasFound`. -/
def kv_edit (s : InMemoryVectorStore) (id : Nat) (data_entry : DataEntry) :
    Except StoreError Unit × InMemoryVectorStore :=
  match s.data_entries.findIdx? (fun entry => entry.id == id) with
  | some index =>
      (.ok (), { s with data_entries := s.data_entries.set index data_entry })
  | none => (.error .noDataWasFound, s)

/-- Mirrors `VectorStore::add` for `InMemoryVectorStore`: run the
embedding capability on the raw input; on failure report it with the
store untouched; on success store the vector through `kv_storage`,
discard the returned id (`let _: usize = ...` in the source) and return
unit. -/
def add (s : InMemoryVectorStore) (name : String)
    (descriptions : List String) (embed : Option (List ℝ)) :
    Except StoreError Unit × InMemoryVectorStore :=
  match embed with
  | none => (.error .embeddingFailure, s)
  | some new_vector =>
      (.ok (), (kv_storage s name descriptions new_vector).1)

/-- Mirrors `VectorStore::edit` for `InMemoryVectorStore`: delete the
entry carrying the id of `data_entry` first (propagating a not-found
error with the store untouched), then `add` the replacement name,
descriptions and the freshly embedded vector. -/
def edit (s : InMemoryVectorStore) (embed : Option (List ℝ))
    (data_entry : DataEntry) :
    Except StoreError Unit × InMemoryVectorStore :=
  match kv_delete s data_entry.id with
  | (.error e, s₁) => (.error e, s₁)
  | (.ok _, s₁) => add s₁ data_entry.name data_entry.descriptions embed

/-- Mirrors `VectorStore::delete` for `InMemoryVectorStore`: forwards to
`kv_delete`. -/
def delete (s : InMemoryVectorStore) (id : Nat) :
    Except StoreError Unit × InMemoryVectorStore :=
  kv_delete s id

/-- Mirrors `VectorStore::search` for `InMemoryVectorStore`: run the
embedding capability on the raw input, propagate its failure, then rank
with `kv_search`. -/
noncomputable def search (s : InMemoryVectorStore)
    (embed : Option (List ℝ)) (top_n : Nat) :
    Except StoreError (List DataEntry) :=
  match embed with
  | none => .error .embeddingFailure
  | some new_vector => kv_search s new_vector top_n

end InMemoryVectorStore

/-- A JSON value tree, the model of the serde_json document written by
`SharedStores::save` in `src/store.rs`.  serde_json distinguishes
integral and floating numbers inside `serde_json::Number`; the `nat`
constructor models the unsigned integers (`usize` fields) and `num` the
`f64` payloads, idealized as `ℝ` (serde_json prints each finite `f64`
as a shortest decimal that parses back bit-for-bit). -/
inductive Json where
  | null
  | bool (b : Bool)
  | nat (n : Nat)
  | num (x : ℝ)
  | str (s : String)
  | arr (elems : List Json)
  | obj (fields : List (String × Json))

/-- serde serialization of one `DataEntry` (derived serializers emit a
JSON object with one member per field, in declaration order). -/
def encodeEntry (e : DataEntry) : Json :=
  .obj [("id", .nat e.id), ("name", .str e.name),
        ("vector", .arr (e.vector.map Json.num)),
        ("descriptions", .arr (e.descriptions.map Json.str))]

/-- serde deserialization of a homogeneous `f64` array. -/
def decodeNums : List Json → Option (List ℝ)
  | [] => some []
  | .num x :: rest => (decodeNums rest).map (fun l => x :: l)
  | _ => none

/-- serde deserialization of a homogeneous string array. -/
def decodeStrs : List Json → Option (List String)
  | [] => some []
  | .str s :: rest => (decodeStrs rest).map (fun l => s :: l)
  | _ => none

/-- serde deserialization of one `DataEntry`. -/
def decodeEntry : Json → Option DataEntry
  | .obj [("id", .nat i), ("name", .str n), ("vector", .arr v),
          ("descriptions", .arr d)] => do
      let vec ← decodeNums v
      let ds ← decodeStrs d
      some ⟨i, n, vec, ds⟩
  | _ => none

/-- serde deserialization of the `data_entries` array. -/
def decodeEntries : List Json → Option (List DataEntry)
  | [] => some []
  | j :: rest => do
      let e ← decodeEntry j
      let es ← decodeEntries rest
      some (e :: es)

/-- serde serialization of one `InMemoryVectorStore`: every field of the
struct, in declaration order (`data_entries`, the prompt annotation
list, `prompts`, `prompt_size`, `dimensions`). -/
def encodeStore (s : InMemoryVectorStore) : Json :=
  .obj [("data_entries", .arr (s.data_entries.map encodeEntry)),
        ("prompt_annots", .arr (s.prompt_annots.map Json.str)),
        ("prompts", .arr (s.prompts.map Json.str)),
        ("prompt_size", .nat s.prompt_size),
        ("dimensions", .nat s.dimensions)]

/-- serde deserialization of one `InMemoryVectorStore`. -/
def decodeStore : Json → Option InMemoryVectorStore
  | .obj [("data_entries", .arr de), ("prompt_annots", .arr pa),
          ("prompts", .arr ps), ("prompt_size", .nat sz),
          ("dimensions", .nat dim)] => do
      let entries ← decodeEntries de
      let annots ← decodeStrs pa
      let prompts ← decodeStrs ps
      some ⟨entries, annots, prompts, sz, dim⟩
  | _ => none

/-- The coordinator state, mirroring `SharedStores` in `src/store.rs`
with the `Arc<Mutex<..>>` wrappers erased (the locks serialize access
and carry no data; `save` and `load` hold both while running). -/
structure SharedStores where
  clothes : InMemoryVectorStore
  face : InMemoryVectorStore

namespace SharedStores

/-- Mirrors `SharedStores::save`: snapshot both stores into a
`PersistentStores { clothes, face }` value and serialize it with
serde_json.  The produced document models the bytes written to the
path. -/
def save (s : SharedStores) : Json :=
  .obj [("clothes", encodeStore s.clothes), ("face", encodeStore s.face)]

/-- Mirrors `SharedStores::load`: deserialize a `PersistentStores`
document and replace both stores entirely with the loaded ones; `none`
models the serde_json deserialization error on a malformed document. -/
def load (j : Json) : Option SharedStores :=
  match j with
  | .obj [("clothes", jc), ("face", jf)] => do
      let clothes ← decodeStore jc
      let face ← decodeStore jf
      some ⟨clothes, face⟩
  | _ => none

end SharedStores

/-! ### Specification-side arithmetic

Independent formulations of the quantities the spec talks about, written
with indexed finite sums rather than the iterator folds of the source,
so that the theorems below compare two genuinely different
formulations. -/

/-- Sum of squares of the components of a vector, over its full length. -/
noncomputable def sumSq (a : List ℝ) : ℝ :=
  ∑ i ∈ Finset.range a.length, (a.getD i 0) ^ 2

/-- The Euclidean norm of a vector. -/
noncomputable def euclideanNorm (a : List ℝ) : ℝ :=
  Real.sqrt (sumSq a)

/-- Dot product of two vectors over their common index range
`0, ..., min (length a) (length b) - 1`. -/
noncomputable def dotCommon (a b : List ℝ) : ℝ :=
  ∑ i ∈ Finset.range (min a.length b.length), a.getD i 0 * b.getD i 0

/-- A mapped iterator sum is the indexed sum over positions. -/
theorem sum_map_eq_sum_range {α : Type} (f : α → ℝ) (d : α) (l : List α) :
    (l.map f).sum = ∑ i ∈ Finset.range l.length, f (l.getD i d) := by
  induction l with
  | nil => simp
  | cons x xs ih =>
      rw [List.map_cons, List.sum_cons, List.length_cons,
        Finset.sum_range_succ']
      simp only [List.getD_cons_succ, List.getD_cons_zero]
      rw [ih]
      ring

/-- The iterator sum of squares of the source is `sumSq`. -/
theorem sum_sq_eq_sumSq (a : List ℝ) :
    ((a.map fun x => x * x).sum) = sumSq a := by
  rw [sum_map_eq_sum_range (fun x => x * x) 0 a, sumSq]
  exact Finset.sum_congr rfl fun i _ => (pow_two (a.getD i 0)).symm

/-- The zipped iterator dot product of the source is the indexed dot
product over the common index range: `zip` truncates to the shorter
vector. -/
theorem sum_zip_eq_dotCommon (a b : List ℝ) :
    (((a.zip b).map fun p => p.1 * p.2).sum) = dotCommon a b := by
  rw [sum_map_eq_sum_range (fun p => p.1 * p.2) (0, 0) (a.zip b), dotCommon]
  rw [List.length_zip]
  refine Finset.sum_congr rfl fun i hi => ?_
  have hi' : i < min a.length b.length := Finset.mem_range.mp hi
  have hiz : i < (a.zip b).length := by rw [List.length_zip]; exact hi'
  have ha : i < a.length := lt_of_lt_of_le hi' (min_le_left _ _)
  have hb : i < b.length := lt_of_lt_of_le hi' (min_le_right _ _)
  rw [List.getD_eq_getElem?_getD, List.getElem?_eq_getElem hiz,
    List.getD_eq_getElem?_getD a, List.getElem?_eq_getElem ha,
    List.getD_eq_getElem?_getD b, List.getElem?_eq_getElem hb]
  simp [List.getElem_zip]

/-- The source `cosine_similarity` rewritten in specification terms:
zero on a zero norm, otherwise the common-range dot product divided by
the product of the full-length Euclidean norms. -/
theorem cosine_similarity_eq (a b : List ℝ) :
    InMemoryVectorStore.cosine_similarity a b =
      if euclideanNorm a = 0 ∨ euclideanNorm b = 0 then 0
      else dotCommon a b / (euclideanNorm a * euclideanNorm b) := by
  simp only [InMemoryVectorStore.cosine_similarity, euclideanNorm,
    sum_sq_eq_sumSq, sum_zip_eq_dotCommon]

/-- C4: for every pair of vectors, if either Euclidean norm is exactly
zero then `cosine_similarity` returns exactly `0`; otherwise it returns
the dot product divided by the product of the two norms, and that
divisor is nonzero (the division is a genuine division, never by
zero). -/
theorem cosine_similarity_zero_norm_spec (a b : List ℝ) :
    (euclideanNorm a = 0 ∨ euclideanNorm b = 0 →
      InMemoryVectorStore.cosine_similarity a b = 0) ∧
    (euclideanNorm a ≠ 0 → euclideanNorm b ≠ 0 →
      InMemoryVectorStore.cosine_similarity a b =
        dotCommon a b / (euclideanNorm a * euclideanNorm b) ∧
      euclideanNorm a * euclideanNorm b ≠ 0) := by
  constructor
  · intro h
    rw [cosine_similarity_eq, if_pos h]
  · intro ha hb
    refine ⟨?_, mul_ne_zero ha hb⟩
    rw [cosine_similarity_eq, if_neg (by push_neg; exact ⟨ha, hb⟩)]

/-- Witness for C4: a zero vector yields similarity `0`, and on `[1]`
against `[1]` the similarity is the dot product over the norm
product. -/
theorem cosine_similarity_zero_norm_spec_witness :
    InMemoryVectorStore.cosine_similarity [0] [3] = 0 ∧
    InMemoryVectorStore.cosine_similarity [1] [1] =
      dotCommon [1] [1] / (euclideanNorm [1] * euclideanNorm [1]) := by
  have h0 : euclideanNorm [(0 : ℝ)] = 0 := by
    simp [euclideanNorm, sumSq]
  have h1 : euclideanNorm [(1 : ℝ)] ≠ 0 := by
    simp [euclideanNorm, sumSq]
  exact ⟨(cosine_similarity_zero_norm_spec [0] [3]).1 (Or.inl h0),
    ((cosine_similarity_zero_norm_spec [1] [1]).2 h1 h1).1⟩

/-- C10: `cosine_similarity` is a total function also on vectors of
unequal lengths (it neither fails nor panics, being defined by this
equation for all inputs): the dot product ranges over the common index
range of length `min (length a) (length b)` — the `zip` of the source
truncates to the shorter vector — while each norm ranges over that
vector's full length. -/
theorem cosine_similarity_length_mismatch_total (a b : List ℝ) :
    InMemoryVectorStore.cosine_similarity a b =
      if euclideanNorm a = 0 ∨ euclideanNorm b = 0 then 0
      else (∑ i ∈ Finset.range (min a.length b.length),
              a.getD i 0 * b.getD i 0) /
        (Real.sqrt (∑ i ∈ Finset.range a.length, (a.getD i 0) ^ 2) *
         Real.sqrt (∑ i ∈ Finset.range b.length, (b.getD i 0) ^ 2)) := by
  rw [cosine_similarity_eq]
  rfl

/-! ### Helper lemmas about find-and-erase -/

/-- A successful `findIdx?` splits the list at the first match, and
erasing that index drops exactly the matching element. -/
theorem findIdx?_decomp {α : Type} {p : α → Bool} :
    ∀ {l : List α} {i : Nat}, l.findIdx? p = some i →
      ∃ a l₁ l₂, p a = true ∧ (∀ x ∈ l₁, p x = false) ∧
        l = l₁ ++ a :: l₂ ∧ l.eraseIdx i = l₁ ++ l₂
  | [], i, h => by simp at h
  | x :: xs, i, h => by
      rw [List.findIdx?_cons] at h
      by_cases hx : p x = true
      · rw [if_pos hx] at h
        obtain rfl : (0 : Nat) = i := by simpa using h
        exact ⟨x, [], xs, hx, by simp, rfl, rfl⟩
      · rw [if_neg hx] at h
        rw [List.findIdx?_succ] at h
        obtain ⟨j, hj, rfl⟩ := Option.map_eq_some'.mp h
        obtain ⟨a, l₁, l₂, hpa, hl₁, hdec, her⟩ := findIdx?_decomp hj
        refine ⟨a, x :: l₁, l₂, hpa, ?_, by simp [hdec], ?_⟩
        · intro y hy
          rcases List.mem_cons.mp hy with rfl | hy
          · simpa using hx
          · exact hl₁ y hy
        · simp only [List.eraseIdx_cons_succ, List.cons_append]
          rw [her]

namespace InMemoryVectorStore

/-- When no entry carries the requested id, `kv_delete` reports
`NoDataWasFound` and returns the store untouched. -/
theorem kv_delete_of_absent {s : InMemoryVectorStore} {id : Nat}
    (h : ∀ e ∈ s.data_entries, e.id ≠ id) :
    s.kv_delete id = (.error .noDataWasFound, s) := by
  have hnone : s.data_entries.findIdx? (fun entry => entry.id == id) = none := by
    rw [List.findIdx?_eq_none_iff]
    intro e he
    simpa using h e he
  simp [kv_delete, hnone]

/-- When some entry carries the requested id, `kv_delete` succeeds and
removes exactly the first entry with that id, keeping every other entry
in order and leaving the configuration untouched. -/
theorem kv_delete_of_present {s : InMemoryVectorStore} {id : Nat}
    (h : ∃ e ∈ s.data_entries, e.id = id) :
    (s.kv_delete id).1 = .ok () ∧
    ∃ e l₁ l₂, e.id = id ∧ (∀ x ∈ l₁, x.id ≠ id) ∧
      s.data_entries = l₁ ++ e :: l₂ ∧
      (s.kv_delete id).2 = { s with data_entries := l₁ ++ l₂ } := by
  obtain ⟨e₀, he₀, hid⟩ := h
  have hsome : ∃ i, s.data_entries.findIdx? (fun entry => entry.id == id) = some i := by
    have : (s.data_entries.findIdx? (fun entry => entry.id == id)).isSome := by
      rw [List.findIdx?_isSome, List.any_eq_true]
      exact ⟨e₀, he₀, by simpa using hid⟩
    exact Option.isSome_iff_exists.mp this
  obtain ⟨i, hi⟩ := hsome
  obtain ⟨a, l₁, l₂, hpa, hl₁, hdec, her⟩ := findIdx?_decomp hi
  refine ⟨by simp [kv_delete, hi], a, l₁, l₂, by simpa using hpa, ?_, hdec, ?_⟩
  · intro x hx
    simpa using hl₁ x hx
  · simp [kv_delete, hi, her]

/-- After deleting the only entry carrying an id, a second delete with
the same id reports `NoDataWasFound`. -/
theorem kv_delete_twice_of_unique {s : InMemoryVectorStore} {id : Nat}
    (h : (s.data_entries.filter fun e => e.id == id).length ≤ 1) :
    ((s.kv_delete id).2.kv_delete id).1 = .error .noDataWasFound := by
  match hf : s.data_entries.findIdx? (fun entry => entry.id == id) with
  | none =>
      have hstate : s.kv_delete id = (.error .noDataWasFound, s) := by
        simp [kv_delete, hf]
      rw [hstate]
      simp [kv_delete, hf]
  | some i =>
      obtain ⟨a, l₁, l₂, hpa, hl₁, hdec, her⟩ := findIdx?_decomp hf
      have hstate : (s.kv_delete id).2 = { s with data_entries := l₁ ++ l₂ } := by
        simp [kv_delete, hf, her]
      have hfl₁ : l₁.filter (fun e => e.id == id) = [] :=
        List.filter_eq_nil_iff.mpr fun x hx => by simp [hl₁ x hx]
      have hfil : (s.data_entries.filter fun e => e.id == id) =
          a :: l₂.filter (fun e => e.id == id) := by
        rw [hdec, List.filter_append, hfl₁, List.nil_append, List.filter_cons,
          if_pos hpa]
      have hl₂nil : l₂.filter (fun e => e.id == id) = [] := by
        rw [hfil] at h
        simp only [List.length_cons] at h
        exact List.length_eq_zero.mp (by omega)
      have hl₂ : ∀ x ∈ l₂, (x.id == id) = false := by
        intro x hx
        cases hb : (x.id == id) with
        | false => rfl
        | true =>
            have : x ∈ l₂.filter fun e => e.id == id :=
              List.mem_filter.mpr ⟨hx, hb⟩
            rw [hl₂nil] at this
            exact absurd this (List.not_mem_nil x)
      rw [hstate]
      have hnone : (l₁ ++ l₂).findIdx? (fun entry => entry.id == id) = none := by
        rw [List.findIdx?_eq_none_iff]
        intro x hx
        rcases List.mem_append.mp hx with hx | hx
        · exact hl₁ x hx
        · exact hl₂ x hx
      simp [kv_delete, hnone]

end InMemoryVectorStore

/-! ### Concrete sample data shared by the closed theorems -/

/-- A sample record with id 1. -/
def e₁ : DataEntry := { id := 1, name := "a", vector := [1], descriptions := [] }

/-- A sample one-record store. -/
def sampleStore : InMemoryVectorStore :=
  { data_entries := [e₁], prompt_annots := [], prompts := [],
    prompt_size := 2, dimensions := 1 }

/-- A store holding two records that share id 2.  This state is
reachable: it is the record collection that `id_collision_after_delete`
below computes from an empty store by add, add, delete, add. -/
def dupStore : InMemoryVectorStore :=
  { data_entries := [{ id := 2, name := "b", vector := [0], descriptions := [] },
                     { id := 2, name := "c", vector := [1], descriptions := [] }],
    prompt_annots := [], prompts := [], prompt_size := 2, dimensions := 1 }

/-- C9: the id assigned by the storage step of `add` is exactly the one
carried by the appended record, namely the record count plus one; this
id is the value `kv_storage` returns.  Moreover `add` with a successful
embedding succeeds on every store — in particular on stores that
already contain a record with the same name, so it never fails because
of a duplicate name — and `add` with a failed embedding propagates the
capability failure with the store untouched.  (The Rust `async fn add`
binds the returned id with `let _: usize` and itself returns unit.) -/
theorem add_assigns_fresh_id (s : InMemoryVectorStore) (name : String)
    (descriptions : List String) (v : List ℝ) :
    (s.kv_storage name descriptions v).2 = s.data_entries.length + 1 ∧
    (s.kv_storage name descriptions v).1.data_entries =
      s.data_entries ++
        [{ id := (s.kv_storage name descriptions v).2, name := name,
           vector := v, descriptions := descriptions }] ∧
    s.add name descriptions (some v) =
      (.ok (), (s.kv_storage name descriptions v).1) ∧
    s.add name descriptions none = (.error .embeddingFailure, s) :=
  ⟨rfl, rfl, rfl, rfl⟩

/-- C2 (failing input): from an empty store, add two records, delete id
1, then add again.  The new record receives id `len + 1 = 2` while the
surviving record also carries id 2: the id-uniqueness invariant is
violated by the length-based id assignment of `kv_storage`. -/
theorem id_collision_after_delete :
    (let s₀ := InMemoryVectorStore.new 1 [] [] 2
     let s₁ := (s₀.add "a" [] (some [1])).2
     let s₂ := (s₁.add "b" [] (some [2])).2
     let s₃ := (s₂.delete 1).2
     let s₄ := (s₃.add "c" [] (some [3])).2
     s₄.data_entries.map DataEntry.id = [2, 2] ∧
       ¬ (s₄.data_entries.map DataEntry.id).Nodup) := by
  refine ⟨rfl, by decide⟩

/-- C8 (amended): `kv_delete` on a state with no matching id fails with
`NoDataWasFound` and leaves the state unchanged; on a state with a
matching id it removes exactly the first record whose id equals the
argument and leaves all other records (and the configuration)
unchanged; and whenever at most one record carries the id — in
particular under the intended id-uniqueness invariant — a second delete
with the same id fails with `NoDataWasFound`. -/
theorem kv_delete_spec (s : InMemoryVectorStore) (id : Nat) :
    ((∀ e ∈ s.data_entries, e.id ≠ id) →
      s.kv_delete id = (.error .noDataWasFound, s)) ∧
    ((∃ e ∈ s.data_entries, e.id = id) →
      (s.kv_delete id).1 = .ok () ∧
      ∃ e l₁ l₂, e.id = id ∧ (∀ x ∈ l₁, x.id ≠ id) ∧
        s.data_entries = l₁ ++ e :: l₂ ∧
        (s.kv_delete id).2 = { s with data_entries := l₁ ++ l₂ }) ∧
    ((s.data_entries.filter fun e => e.id == id).length ≤ 1 →
      ((s.kv_delete id).2.kv_delete id).1 = .error .noDataWasFound) :=
  ⟨InMemoryVectorStore.kv_delete_of_absent,
   InMemoryVectorStore.kv_delete_of_present,
   InMemoryVectorStore.kv_delete_twice_of_unique⟩

/-- C8 (counterexample to the claim as stated): on the reachable store
holding two records with id 2, deleting id 2 and then deleting id 2
again SUCCEEDS — the second delete does not fail with `NoDataWasFound`,
because a duplicate is still present. -/
theorem second_delete_succeeds_on_duplicate_ids :
    dupStore.data_entries.map DataEntry.id = [2, 2] ∧
    ((dupStore.kv_delete 2).2.kv_delete 2).1 = .ok () ∧
    ¬ ((dupStore.kv_delete 2).2.kv_delete 2).1 = .error .noDataWasFound := by
  refine ⟨rfl, rfl, ?_⟩
  intro hcontra
  rw [show ((dupStore.kv_delete 2).2.kv_delete 2).1 = Except.ok () from rfl] at hcontra
  exact Except.noConfusion hcontra

/-- Witness for C8: on the one-record store, deleting an absent id
fails and changes nothing, deleting id 1 succeeds, and deleting id 1
twice fails the second time. -/
theorem kv_delete_spec_witness :
    sampleStore.kv_delete 5 = (.error .noDataWasFound, sampleStore) ∧
    (sampleStore.kv_delete 1).1 = .ok () ∧
    ((sampleStore.kv_delete 1).2.kv_delete 1).1 = .error .noDataWasFound := by
  refine ⟨(kv_delete_spec sampleStore 5).1 ?_,
    ((kv_delete_spec sampleStore 1).2.1 ?_).1,
    (kv_delete_spec sampleStore 1).2.2 (by decide)⟩
  · intro e he
    have : e = e₁ := by simpa [sampleStore] using he
    subst this
    decide
  · exact ⟨e₁, by simp [sampleStore], rfl⟩

/-- C6 (amended): `edit` behaves as delete-by-id followed by `add` of
the replacement name, descriptions and the freshly embedded vector: it
fails with `NoDataWasFound` (store untouched) when no record carries the
target id, and otherwise the record stored by the `add` step carries the
id `(number of records after the delete) + 1`, which equals the record
count before the edit and may therefore coincide with the original
id. -/
theorem edit_delete_then_add_spec (s : InMemoryVectorStore) (v : List ℝ)
    (de : DataEntry) :
    ((∀ e ∈ s.data_entries, e.id ≠ de.id) →
      s.edit (some v) de = (.error .noDataWasFound, s)) ∧
    ((∃ e ∈ s.data_entries, e.id = de.id) →
      s.edit (some v) de =
        (.ok (), ((s.kv_delete de.id).2.kv_storage de.name de.descriptions v).1) ∧
      ((s.kv_delete de.id).2.kv_storage de.name de.descriptions v).1.data_entries =
        (s.kv_delete de.id).2.data_entries ++
          [{ id := (s.kv_delete de.id).2.data_entries.length + 1,
             name := de.name, vector := v, descriptions := de.descriptions }] ∧
      (s.kv_delete de.id).2.data_entries.length + 1 = s.data_entries.length) := by
  constructor
  · intro h
    have hd := InMemoryVectorStore.kv_delete_of_absent h
    unfold InMemoryVectorStore.edit
    rw [hd]
  · intro h
    obtain ⟨h1, e, l₁, l₂, hid, hl₁, hdec, hstate⟩ :=
      InMemoryVectorStore.kv_delete_of_present h
    have hpair : s.kv_delete de.id = (.ok (), (s.kv_delete de.id).2) := by
      rw [← h1]
    refine ⟨?_, rfl, ?_⟩
    · unfold InMemoryVectorStore.edit
      rw [hpair]
      rfl
    · rw [hstate, hdec]
      simp only [List.length_append, List.length_cons]
      omega

/-- C6 (counterexample to the claim as stated): editing the single
record (id 1) of the one-record store succeeds, and the resulting
stored record carries id 1 again — the length-based reassignment
reproduces the original id, so the stored id is NOT always a new id
different from the original. -/
theorem edit_reuses_original_id :
    sampleStore.data_entries.map DataEntry.id = [1] ∧
    (sampleStore.edit (some [2])
        { id := 1, name := "b", vector := [2], descriptions := [] }).1 = .ok () ∧
    ((sampleStore.edit (some [2])
        { id := 1, name := "b", vector := [2], descriptions := [] }).2.data_entries.map
      DataEntry.id) = [1] :=
  ⟨rfl, rfl, rfl⟩

/-- Witness for C6: editing an absent id fails with `NoDataWasFound`
and an edit of the present id 1 succeeds. -/
theorem edit_delete_then_add_spec_witness :
    sampleStore.edit (some [2])
        { id := 5, name := "b", vector := [2], descriptions := [] } =
      (.error .noDataWasFound, sampleStore) ∧
    (sampleStore.edit (some [2])
        { id := 1, name := "b", vector := [2], descriptions := [] }).1 = .ok () := by
  constructor
  · refine (edit_delete_then_add_spec sampleStore [2] _).1 ?_
    intro e he
    have : e = e₁ := by simpa [sampleStore] using he
    subst this
    decide
  · have h := (edit_delete_then_add_spec sampleStore [2]
      { id := 1, name := "b", vector := [2], descriptions := [] }).2
      ⟨e₁, by simp [sampleStore], rfl⟩
    rw [h.1]

/-- C7 (amended): a failed `add` leaves the store exactly as before
(the only add failure is the embedding one, reported before any
mutation), and an `edit` that fails with `NoDataWasFound` leaves the
store unchanged; but an `edit` whose embedding step fails runs after
the delete step, so it leaves the store in the deleted state — when the
target id was present, the record is gone even though the operation
failed. -/
theorem add_edit_failure_state_spec (s : InMemoryVectorStore)
    (name : String) (descriptions : List String) (de : DataEntry) :
    s.add name descriptions none = (.error .embeddingFailure, s) ∧
    (∀ em, (s.edit em de).1 = .error .noDataWasFound → (s.edit em de).2 = s) ∧
    (s.edit none de).2 = (s.kv_delete de.id).2 ∧
    ((∃ e ∈ s.data_entries, e.id = de.id) →
      (s.edit none de).1 = .error .embeddingFailure) := by
  refine ⟨rfl, ?_, ?_, ?_⟩
  · intro em hres
    cases hf : s.data_entries.findIdx? (fun entry => entry.id == de.id) with
    | none =>
        simp [InMemoryVectorStore.edit, InMemoryVectorStore.kv_delete, hf]
    | some i =>
        exfalso
        cases em with
        | none =>
            have hv : (s.edit none de).1 = .error .embeddingFailure := by
              simp [InMemoryVectorStore.edit, InMemoryVectorStore.kv_delete, hf,
                InMemoryVectorStore.add]
            rw [hv] at hres
            simp at hres
        | some v =>
            have hv : (s.edit (some v) de).1 = .ok () := by
              simp [InMemoryVectorStore.edit, InMemoryVectorStore.kv_delete, hf,
                InMemoryVectorStore.add]
            rw [hv] at hres
            simp at hres
  · cases hf : s.data_entries.findIdx? (fun entry => entry.id == de.id) with
    | none =>
        simp [InMemoryVectorStore.edit, InMemoryVectorStore.kv_delete, hf]
    | some i =>
        simp [InMemoryVectorStore.edit, InMemoryVectorStore.kv_delete, hf,
          InMemoryVectorStore.add]
  · intro h
    obtain ⟨e₀, he₀, hid⟩ := h
    cases hf : s.data_entries.findIdx? (fun entry => entry.id == de.id) with
    | none =>
        exfalso
        have := List.findIdx?_eq_none_iff.mp hf e₀ he₀
        simp [hid] at this
    | some i =>
        simp [InMemoryVectorStore.edit, InMemoryVectorStore.kv_delete, hf,
          InMemoryVectorStore.add]

/-- C7 (counterexample to the claim as stated): on the one-record
store, an `edit` of the present id 1 whose embedding step fails reports
an error AND leaves the record collection empty — the failed operation
removed the existing record instead of leaving the store exactly as it
was. -/
theorem edit_embedding_failure_loses_record :
    (sampleStore.edit none
        { id := 1, name := "b", vector := [], descriptions := [] }).1 =
      .error .embeddingFailure ∧
    (sampleStore.edit none
        { id := 1, name := "b", vector := [], descriptions := [] }).2.data_entries = [] ∧
    sampleStore.data_entries = [e₁] ∧
    ¬ (sampleStore.edit none
        { id := 1, name := "b", vector := [], descriptions := [] }).2.data_entries =
      sampleStore.data_entries := by
  refine ⟨rfl, rfl, rfl, ?_⟩
  intro hcontra
  rw [show (sampleStore.edit none
      { id := 1, name := "b", vector := [], descriptions := [] }).2.data_entries =
      ([] : List DataEntry) from rfl] at hcontra
  rw [show sampleStore.data_entries = [e₁] from rfl] at hcontra
  exact List.noConfusion hcontra

/-- Witness for C7: an edit failing with `NoDataWasFound` (absent id 5)
leaves the one-record store unchanged, and a failed `add` returns the
store untouched. -/
theorem add_edit_failure_state_spec_witness :
    (sampleStore.edit (some [2])
        { id := 5, name := "b", vector := [], descriptions := [] }).2 = sampleStore ∧
    sampleStore.add "a" [] none = (.error .embeddingFailure, sampleStore) := by
  have thm := add_edit_failure_state_spec sampleStore "a" []
      { id := 5, name := "b", vector := [], descriptions := [] }
  exact ⟨thm.2.1 (some [2]) rfl, thm.1⟩

/-! ### Ranking: order and stability of the search results -/

/-- Two members of a list ordered pairwise by an asymmetric relation
form a pair sublist in that order. -/
theorem pair_sublist_of_pairwise_mem {α : Type} {R : α → α → Prop}
    (asymm : ∀ x y, R x y → ¬ R y x) {L : List α} :
    L.Pairwise R → ∀ {x y}, x ∈ L → y ∈ L → R x y →
      List.Sublist [x, y] L := by
  induction L with
  | nil =>
      intro _ x y hx _ _
      exact absurd hx (List.not_mem_nil x)
  | cons c t ih =>
      intro hP x y hx hy hxy
      rw [List.pairwise_cons] at hP
      obtain ⟨hc, ht⟩ := hP
      rcases List.mem_cons.mp hx with hxc | hxt
      · subst hxc
        rcases List.mem_cons.mp hy with hyc | hyt
        · subst hyc
          exact absurd hxy (asymm _ _ hxy)
        · exact List.Sublist.cons₂ _ (List.singleton_sublist.mpr hyt)
      · rcases List.mem_cons.mp hy with hyc | hyt
        · subst hyc
          exact absurd (hc x hxt) (asymm _ _ hxy)
        · exact List.Sublist.cons _ (ih ht hxt hyt hxy)

/-- In a duplicate-free list the relative order of two elements is
unambiguous: pair sublists in both orders force equality. -/
theorem eq_of_pair_sublists_of_nodup {α : Type} {L : List α} :
    L.Nodup → ∀ {a b : α}, List.Sublist [a, b] L → List.Sublist [b, a] L →
      a = b := by
  induction L with
  | nil =>
      intro _ a b hab _
      simp at hab
  | cons c t ih =>
      intro nd a b hab hba
      rw [List.nodup_cons] at nd
      obtain ⟨hc, nt⟩ := nd
      cases hab with
      | cons _ h₁ =>
          cases hba with
          | cons _ h₂ => exact ih nt h₁ h₂
          | cons₂ _ h₂ => exact absurd (List.Sublist.mem (by simp) h₁) hc
      | cons₂ _ h₁ =>
          cases hba with
          | cons _ h₂ => exact absurd (List.Sublist.mem (by simp) h₂) hc
          | cons₂ _ h₂ => rfl

namespace InMemoryVectorStore

/-- The index components of `similarities` are the positions of the
entries. -/
theorem similarities_map_fst (s : InMemoryVectorStore) (q : List ℝ) :
    (similarities s q).map Prod.fst = List.range s.data_entries.length := by
  unfold similarities
  rw [List.map_map]
  have hcomp : (Prod.fst ∘ fun p : Nat × DataEntry =>
      (p.1, cosine_similarity q p.2.vector)) = Prod.fst := rfl
  rw [hcomp, List.enum_map_fst]

/-- The index components of `similarities` are strictly increasing. -/
theorem similarities_pairwise_fst (s : InMemoryVectorStore) (q : List ℝ) :
    (similarities s q).Pairwise fun x y => x.1 < y.1 := by
  have h := List.pairwise_lt_range s.data_entries.length
  rw [← similarities_map_fst s q] at h
  exact List.pairwise_map.mp h

/-- The similarity list has no duplicate pairs. -/
theorem similarities_nodup (s : InMemoryVectorStore) (q : List ℝ) :
    (similarities s q).Nodup :=
  (similarities_pairwise_fst s q).imp fun hlt heq => by
    rw [heq] at hlt
    exact lt_irrefl _ hlt

/-- Every pair of `similarities` is an in-bounds index together with
the cosine similarity of the query against the entry at that index. -/
theorem mem_similarities {s : InMemoryVectorStore} {q : List ℝ}
    {p : Nat × ℝ} (hp : p ∈ similarities s q) :
    p.1 < s.data_entries.length ∧
      p.2 = cosine_similarity q ((s.data_entries.getD p.1 default).vector) := by
  unfold similarities at hp
  obtain ⟨⟨i, e⟩, hmem, rfl⟩ := List.mem_map.mp hp
  have hget := List.mem_enum_iff_getElem?.mp hmem
  obtain ⟨hlt, hval⟩ := List.getElem?_eq_some.mp hget
  refine ⟨hlt, ?_⟩
  rw [List.getD_eq_getElem?_getD, hget]
  rfl

/-- Looking every index of `similarities` back up recovers the record
list itself. -/
theorem map_lookup_similarities (s : InMemoryVectorStore) (q : List ℝ) :
    (similarities s q).map (fun p => s.data_entries.getD p.1 default) =
      s.data_entries := by
  unfold similarities
  rw [List.map_map]
  have hpt : ∀ p ∈ s.data_entries.enum,
      ((fun p : Nat × ℝ => s.data_entries.getD p.1 default) ∘
        fun p : Nat × DataEntry => (p.1, cosine_similarity q p.2.vector)) p =
      Prod.snd p := by
    intro p hp
    have hget := List.mem_enum_iff_getElem?.mp hp
    show s.data_entries.getD p.1 default = p.2
    rw [List.getD_eq_getElem?_getD, hget]
    rfl
  rw [List.map_congr_left hpt, List.enum_map_snd]

/-- The comparator of `kv_search` is transitive. -/
theorem simLE_trans (a b c : Nat × ℝ) (hab : decide (b.2 ≤ a.2) = true)
    (hbc : decide (c.2 ≤ b.2) = true) : decide (c.2 ≤ a.2) = true := by
  rw [decide_eq_true_eq] at *
  exact le_trans hbc hab

/-- The comparator of `kv_search` is total. -/
theorem simLE_total (a b : Nat × ℝ) :
    (decide (b.2 ≤ a.2) || decide (a.2 ≤ b.2)) = true := by
  simpa using le_total b.2 a.2

/-- Order and stability of the sorted similarity list: scores are
non-increasing, and on equal scores the original entry positions are
strictly increasing (the stable sort keeps insertion order on ties). -/
theorem sortedSimilarities_pairwise (s : InMemoryVectorStore) (q : List ℝ) :
    (sortedSimilarities s q).Pairwise
      (fun a b => b.2 ≤ a.2 ∧ (a.2 ≤ b.2 → a.1 < b.1)) := by
  unfold sortedSimilarities
  have hsorted := List.sorted_mergeSort simLE_trans simLE_total (similarities s q)
  have hperm := List.mergeSort_perm (similarities s q)
    (fun a b : Nat × ℝ => decide (b.2 ≤ a.2))
  have hnd : ((similarities s q).mergeSort
      (fun a b : Nat × ℝ => decide (b.2 ≤ a.2))).Nodup :=
    hperm.nodup_iff.mpr (similarities_nodup s q)
  have hfst_nodup : ((similarities s q).map Prod.fst).Nodup := by
    rw [similarities_map_fst]
    exact List.nodup_range _
  rw [List.pairwise_iff_forall_sublist]
  intro a b hab
  have hle : decide (b.2 ≤ a.2) = true :=
    List.pairwise_iff_forall_sublist.mp hsorted hab
  refine ⟨of_decide_eq_true hle, ?_⟩
  intro htie
  have hamem : a ∈ similarities s q :=
    hperm.mem_iff.mp (List.Sublist.mem (by simp) hab)
  have hbmem : b ∈ similarities s q :=
    hperm.mem_iff.mp (List.Sublist.mem (by simp) hab)
  rcases Nat.lt_trichotomy a.1 b.1 with hlt | heq | hgt
  · exact hlt
  · exfalso
    have hab_eq : a = b :=
      List.inj_on_of_nodup_map hfst_nodup hamem hbmem heq
    exact (List.nodup_iff_sublist.mp hnd b) (hab_eq ▸ hab)
  · exfalso
    have hsub : List.Sublist [b, a] (similarities s q) :=
      pair_sublist_of_pairwise_mem (fun x y h₁ h₂ => Nat.lt_asymm h₁ h₂)
        (similarities_pairwise_fst s q) hbmem hamem hgt
    have hba := List.pair_sublist_mergeSort simLE_trans simLE_total
      (decide_eq_true htie) hsub
    have heq : b = a := eq_of_pair_sublists_of_nodup hnd hba hab
    rw [heq] at hgt
    exact lt_irrefl _ hgt

/-- The sorted similarity list keeps one pair per stored record. -/
theorem length_sortedSimilarities (s : InMemoryVectorStore) (q : List ℝ) :
    (sortedSimilarities s q).length = s.data_entries.length := by
  unfold sortedSimilarities
  rw [List.length_mergeSort]
  unfold similarities
  rw [List.length_map, List.enum_length]

end InMemoryVectorStore

/-! ### Persistence round trip -/

/-- Decoding inverts encoding on float arrays. -/
theorem decodeNums_encode (l : List ℝ) :
    decodeNums (l.map Json.num) = some l := by
  induction l with
  | nil => rfl
  | cons x xs ih => simp [decodeNums, ih]

/-- Decoding inverts encoding on string arrays. -/
theorem decodeStrs_encode (l : List String) :
    decodeStrs (l.map Json.str) = some l := by
  induction l with
  | nil => rfl
  | cons x xs ih => simp [decodeStrs, ih]

/-- Decoding inverts encoding on one record. -/
theorem decodeEntry_encode (e : DataEntry) :
    decodeEntry (encodeEntry e) = some e := by
  obtain ⟨i, n, v, d⟩ := e
  simp [encodeEntry, decodeEntry, decodeNums_encode, decodeStrs_encode]

/-- Decoding inverts encoding on record arrays. -/
theorem decodeEntries_encode (l : List DataEntry) :
    decodeEntries (l.map encodeEntry) = some l := by
  induction l with
  | nil => rfl
  | cons e es ih => simp [decodeEntries, decodeEntry_encode, ih]

/-- Decoding inverts encoding on one store, configuration included. -/
theorem decodeStore_encode (s : InMemoryVectorStore) :
    decodeStore (encodeStore s) = some s := by
  obtain ⟨de, pa, ps, sz, dim⟩ := s
  simp [encodeStore, decodeStore, decodeEntries_encode, decodeStrs_encode]

/-- C3: saving the coordinator state and loading the produced document
reproduces exactly the same state — both named stores, their full
configuration and every record with its id, name, descriptions and
exact vector values. -/
theorem save_load_roundtrip (s : SharedStores) :
    SharedStores.load (SharedStores.save s) = some s := by
  obtain ⟨clothes, face⟩ := s
  simp [SharedStores.save, SharedStores.load, decodeStore_encode]

/-- C1: whenever `kv_search` succeeds, the returned list holds at most
`top_n` entries; it is the ranked truncation `top_entries`, whose
underlying index-score pairs have non-increasing similarity scores,
with ties (equal scores) in strictly increasing index order — i.e. in
original insertion order — and every score is the cosine similarity of
the query against the entry at that index.  (In the real-number
idealization no similarity is NaN, so the no-NaN hypothesis of the
claim always holds.) -/
theorem kv_search_ranked (s : InMemoryVectorStore) (q : List ℝ) (n : Nat)
    (r : List DataEntry)
    (h : InMemoryVectorStore.kv_search s q n = .ok r) :
    r.length ≤ n ∧
    r = InMemoryVectorStore.top_entries s q n ∧
    ((InMemoryVectorStore.sortedSimilarities s q).take n).Pairwise
      (fun a b => b.2 ≤ a.2 ∧ (a.2 ≤ b.2 → a.1 < b.1)) ∧
    ∀ p ∈ (InMemoryVectorStore.sortedSimilarities s q).take n,
      p.2 = InMemoryVectorStore.cosine_similarity q
        ((s.data_entries.getD p.1 default).vector) := by
  have hr : r = InMemoryVectorStore.top_entries s q n := by
    unfold InMemoryVectorStore.kv_search at h
    by_cases h1 : s.data_entries.isEmpty
    · rw [if_pos h1] at h
      exact absurd h (by simp)
    · rw [if_neg h1] at h
      by_cases h2 : (InMemoryVectorStore.top_entries s q n).isEmpty
      · rw [if_pos h2] at h
        exact absurd h (by simp)
      · rw [if_neg h2] at h
        simpa using h.symm
  refine ⟨?_, hr, ?_, ?_⟩
  · rw [hr]
    unfold InMemoryVectorStore.top_entries
    rw [List.length_map]
    exact List.length_take_le n _
  · exact List.Pairwise.sublist (List.take_sublist n _)
      (InMemoryVectorStore.sortedSimilarities_pairwise s q)
  · intro p hp
    have hp₁ : p ∈ InMemoryVectorStore.sortedSimilarities s q :=
      List.Sublist.mem hp (List.take_sublist n _)
    have hp₂ : p ∈ InMemoryVectorStore.similarities s q := by
      unfold InMemoryVectorStore.sortedSimilarities at hp₁
      exact (List.mergeSort_perm _ _).mem_iff.mp hp₁
    exact (InMemoryVectorStore.mem_similarities hp₂).2

/-- Witness for C1: on the one-record store, searching with `top_n = 1`
succeeds with exactly that record, and the result length is at most
one. -/
theorem kv_search_ranked_witness :
    InMemoryVectorStore.kv_search sampleStore [1] 1 = .ok [e₁] ∧
    ([e₁] : List DataEntry).length ≤ 1 := by
  have hok : InMemoryVectorStore.kv_search sampleStore [1] 1 = .ok [e₁] := by
    unfold InMemoryVectorStore.kv_search InMemoryVectorStore.top_entries
      InMemoryVectorStore.sortedSimilarities InMemoryVectorStore.similarities
    simp [sampleStore, List.enum_cons, List.enumFrom, List.mergeSort_singleton]
  exact ⟨hok, (kv_search_ranked sampleStore [1] 1 [e₁] hok).1⟩

/-- C5: `kv_search` fails with `NoDataWasFound` exactly when the store
is empty or `top_n` is zero (the truncation is empty); and on a
non-empty store with `top_n` at least the candidate count it succeeds
and returns all candidates — a permutation of the full record list. -/
theorem kv_search_not_found_spec (s : InMemoryVectorStore) (q : List ℝ)
    (n : Nat) :
    (InMemoryVectorStore.kv_search s q n = .error .noDataWasFound ↔
      s.data_entries = [] ∨ n = 0) ∧
    (s.data_entries ≠ [] → s.data_entries.length ≤ n →
      InMemoryVectorStore.kv_search s q n =
        .ok (InMemoryVectorStore.top_entries s q n) ∧
      (InMemoryVectorStore.top_entries s q n).Perm s.data_entries) := by
  have hlen_top : (InMemoryVectorStore.top_entries s q n).length =
      min n s.data_entries.length := by
    unfold InMemoryVectorStore.top_entries
    rw [List.length_map, List.length_take,
      InMemoryVectorStore.length_sortedSimilarities]
  constructor
  · by_cases h1 : s.data_entries.isEmpty
    · have he : s.data_entries = [] := List.isEmpty_iff.mp h1
      simp [InMemoryVectorStore.kv_search, h1, he]
    · have he : s.data_entries ≠ [] := by
        simpa [List.isEmpty_iff] using h1
      by_cases h2 : (InMemoryVectorStore.top_entries s q n).isEmpty
      · have hn : n = 0 := by
          have h0 := List.isEmpty_iff.mp h2
          have hl := congrArg List.length h0
          rw [hlen_top] at hl
          simp only [List.length_nil] at hl
          rcases Nat.min_eq_zero_iff.mp hl with h | h
          · exact h
          · exact absurd (List.length_eq_zero.mp h) he
        subst hn
        have h0 : InMemoryVectorStore.top_entries s q 0 = [] :=
          List.isEmpty_iff.mp h2
        simp [InMemoryVectorStore.kv_search, h1, h2, h0]
      · have hn : n ≠ 0 := by
          intro h0
          subst h0
          have : (InMemoryVectorStore.top_entries s q 0).length = 0 := by
            rw [hlen_top]
            simp
          exact h2 (List.isEmpty_iff.mpr (List.length_eq_zero.mp this))
        simp [InMemoryVectorStore.kv_search, h1, h2, he, hn]
  · intro hne hle
    have h1 : ¬ s.data_entries.isEmpty = true := by
      simpa [List.isEmpty_iff] using hne
    have htake : (InMemoryVectorStore.sortedSimilarities s q).take n =
        InMemoryVectorStore.sortedSimilarities s q :=
      List.take_of_length_le
        (by rw [InMemoryVectorStore.length_sortedSimilarities]; exact hle)
    have hperm : (InMemoryVectorStore.top_entries s q n).Perm s.data_entries := by
      unfold InMemoryVectorStore.top_entries
      rw [htake]
      have hmp := List.Perm.map (fun p : Nat × ℝ => s.data_entries.getD p.1 default)
        (List.mergeSort_perm (InMemoryVectorStore.similarities s q)
          (fun a b : Nat × ℝ => decide (b.2 ≤ a.2)))
      rw [InMemoryVectorStore.map_lookup_similarities] at hmp
      exact hmp
    have h2 : ¬ (InMemoryVectorStore.top_entries s q n).isEmpty = true := by
      rw [List.isEmpty_iff]
      intro h0
      exact hne (List.nil_perm.mp (h0 ▸ hperm))
    refine ⟨?_, hperm⟩
    simp [InMemoryVectorStore.kv_search, h1, h2]

/-- Witness for C5: the empty store fails with `NoDataWasFound` under
`top_n = 5`, while the one-record store with `top_n = 5` returns all
its records. -/
theorem kv_search_not_found_spec_witness :
    InMemoryVectorStore.kv_search (InMemoryVectorStore.new 1 [] [] 2) [1] 5 =
      .error .noDataWasFound ∧
    InMemoryVectorStore.kv_search sampleStore [1] 5 =
      .ok (InMemoryVectorStore.top_entries sampleStore [1] 5) ∧
    (InMemoryVectorStore.top_entries sampleStore [1] 5).Perm
      sampleStore.data_entries := by
  have h := (kv_search_not_found_spec sampleStore [1] 5).2
    (by simp [sampleStore]) (by simp [sampleStore])
  exact ⟨(kv_search_not_found_spec (InMemoryVectorStore.new 1 [] [] 2) [1] 5).1.mpr
    (Or.inl rfl), h.1, h.2⟩

end Stylist
